import Mathlib

/-!
Verification development for the Advance-stacked_encoding repository.

The repository is a hand-drawn envelope editor for audio waveforms.  Its
transformation engine lives in `🍘advance_Natural_Language.py` (primary) and
`tempCodeRunnerFile.py` (a near-duplicate older variant).  Amplitudes are
modelled as rationals (`ℚ`): the Python code does IEEE-754 float arithmetic,
and every claim below is about the exact arithmetic the code performs, which
the rational idealization reproduces on the claims' inputs.

Machine state of an `EnvelopePlot` instance is embedded as an explicit
structure, and each event-handler method becomes a state-passing function.
-/

set_option linter.unusedVariables false

/-- Python / NumPy element read `l[p]` for a possibly negative index `p`:
a negative index wraps around (`l[len l + p]`).  An index that is out of
range even after wrapping raises in Python; that corner is unreachable in
every run considered here, and the embedding returns the default `0`. -/
def pyGet (l : List ℚ) (p : ℤ) : ℚ :=
  if 0 ≤ p then l.getD p.toNat 0 else l.getD (l.length + p).toNat 0

/-- NumPy `np.linspace a b n`: `n` evenly spaced values from `a` to `b`
inclusive; entry `k` is `a + (b - a) * k / (n - 1)`. -/
def linspace (a b : ℚ) (n : ℕ) : List ℚ :=
  (List.range n).map (fun k : ℕ => a + (b - a) * (k : ℚ) / ((n : ℚ) - 1))

/-- NumPy slice assignment `l[lo : lo + vals.length] = vals` (length
preserving, indices beyond the slice keep their old values). -/
def assign_slice (l : List ℚ) (lo : ℕ) (vals : List ℚ) : List ℚ :=
  (List.range l.length).map
    (fun j => if lo ≤ j ∧ j < lo + vals.length then vals.getD (j - lo) 0 else l.getD j 0)

/-- State of one `EnvelopePlot` instance (`🍘advance_Natural_Language.py`
lines 198-249): the fields of `__init__` that the transformation engine
reads or writes.  `audio_data` entries are `Option ℚ`: `none` stands for an
IEEE NaN/Inf produced by a zero normalization divisor (claim C9); every
sample of a successfully normalized asset is `some` of its value.  Rendering
fields (lines, figure, colors) are omitted: no claim mentions them. -/
structure EnvState where
  audio_data : List (Option ℚ)
  num_points : ℕ
  drawing_pos : List ℚ
  drawing_neg : List ℚ
  is_drawing : Bool
  prev_idx : Option ℤ
  last_state_pos : Option (List ℚ)
  last_state_neg : Option (List ℚ)
  offset : ℚ
deriving DecidableEq, Repr

/-- Maximum absolute value of a list, `np.max(np.abs(data))`.  (`np.max` of
an empty array raises; the fold returns `0` there, a corner no claim uses.) -/
def maxAbs (l : List ℚ) : ℚ :=
  l.foldr (fun v acc => max |v| acc) 0

/-- `EnvelopePlot.__init__` normalization and state creation
(`🍘advance_Natural_Language.py` lines 208-245): the (already mono) decoded
samples are divided by their maximum absolute amplitude, the two envelope
arrays are created zero-filled with one slot per sample, and the drawing
state is initialized.  When the divisor `np.max(np.abs(data))` is zero,
NumPy emits NaN/Inf values together with a runtime warning and the
constructor still completes; `none` entries model those undefined samples. -/
def envelope_init (data : List ℚ) : EnvState :=
  let m := maxAbs data
  { audio_data := data.map (fun v => if m = 0 then none else some (v / m))
    num_points := data.length
    drawing_pos := List.replicate data.length 0
    drawing_neg := List.replicate data.length 0
    is_drawing := false
    prev_idx := none
    last_state_pos := none
    last_state_neg := none
    offset := 0 }

/-- Modelled from the spec: the loader contract of §4.1, which is absent
from the source: "Normalize by dividing every sample by the global maximum
absolute amplitude (fails with `EmptyOrSilentAsset` if that maximum is
zero)".  `none` is the `EmptyOrSilentAsset` failure, surfaced before any
envelope state exists. -/
def load_asset_spec (data : List ℚ) : Option (List ℚ) :=
  if maxAbs data = 0 then none else some (data.map (fun v => v / maxAbs data))

/-- The stroke write of `EnvelopePlot.update_drawing`
(`🍘advance_Natural_Language.py` lines 279-291) on the side array `env`
selected by the caller: with a defined previous index `p` different from
the new index `idx`, the inclusive range between them is overwritten by
`np.linspace` between the side's existing value at `p` and the new relative
amplitude `rel`; otherwise the single slot `idx` is overwritten.  A negative
`min p idx` would hit NumPy's negative-slice wrapping; that corner is
unreachable in the runs any claim speaks about. -/
def write_stroke (env : List ℚ) (prev : Option ℤ) (idx : ℤ) (rel : ℚ) : List ℚ :=
  match prev with
  | some p =>
    if p ≠ idx then
      let lo := min p idx
      let hi := max p idx
      let start_val := if idx < p then rel else pyGet env p
      let end_val := if idx < p then pyGet env p else rel
      assign_slice env lo.toNat (linspace start_val end_val ((hi - lo).toNat + 1))
    else env.set idx.toNat rel
  | none => env.set idx.toNat rel

/-- `EnvelopePlot.update_drawing` (`🍘advance_Natural_Language.py` lines
267-305) restricted to its state effect: `idx` is the event's mapped sample
index `int(round(event.xdata))`; an index outside `[0, num_points)` returns
with no change at all; otherwise the relative amplitude
`event.ydata - offset` routes to `drawing_pos` when `≥ 0` and to
`drawing_neg` otherwise, the routed side receives the stroke write, and
`prev_idx` becomes the new index.  The trailing canvas blitting has no state
effect and is omitted. -/
def update_drawing (st : EnvState) (idx : ℤ) (ydata : ℚ) : EnvState :=
  if idx < 0 ∨ (st.num_points : ℤ) ≤ idx then st
  else
    let rel_amp := ydata - st.offset
    let env := if 0 ≤ rel_amp then st.drawing_pos else st.drawing_neg
    let env2 := write_stroke env st.prev_idx idx rel_amp
    { st with
      drawing_pos := if 0 ≤ rel_amp then env2 else st.drawing_pos
      drawing_neg := if 0 ≤ rel_amp then st.drawing_neg else env2
      prev_idx := some idx }

/-- `EnvelopePlot.on_mouse_press` (`🍘advance_Natural_Language.py` lines
250-258) for an event inside the axes with defined coordinates: start
drawing, remember the pressed index, snapshot both envelope sides, then run
the drawing update on the same event. -/
def on_mouse_press (st : EnvState) (idx : ℤ) (ydata : ℚ) : EnvState :=
  let st1 := { st with
    is_drawing := true
    prev_idx := some idx
    last_state_pos := some st.drawing_pos
    last_state_neg := some st.drawing_neg }
  update_drawing st1 idx ydata

/-- `EnvelopePlot.on_mouse_move` (lines 260-262): update only while a
stroke is active. -/
def on_mouse_move (st : EnvState) (idx : ℤ) (ydata : ℚ) : EnvState :=
  if st.is_drawing then update_drawing st idx ydata else st

/-- `EnvelopePlot.on_mouse_release` (lines 264-265). -/
def on_mouse_release (st : EnvState) : EnvState :=
  { st with is_drawing := false }

/-- One complete stroke: a press, a sequence of move events, and a release. -/
def stroke (st : EnvState) (press : ℤ × ℚ) (moves : List (ℤ × ℚ)) : EnvState :=
  on_mouse_release
    (moves.foldl (fun s m => on_mouse_move s m.1 m.2) (on_mouse_press st press.1 press.2))

/-- `EnvelopePlot.undo_envelope` (lines 307-311): restore both envelope
sides from the snapshot when both snapshot slots are set, else do nothing.
`redraw_lines` only touches rendering state. -/
def undo_envelope (st : EnvState) : EnvState :=
  match st.last_state_pos, st.last_state_neg with
  | some a, some b => { st with drawing_pos := a, drawing_neg := b }
  | _, _ => st

/-- `EnvelopePlot.reset_envelope` (lines 313-316): fill both envelope
arrays with zeros in place (`self.drawing_pos[:] = 0`), lengths preserved. -/
def reset_envelope (st : EnvState) : EnvState :=
  { st with
    drawing_pos := List.replicate st.drawing_pos.length 0
    drawing_neg := List.replicate st.drawing_neg.length 0 }

/-- The side array that a relative amplitude `rel` routes to (the
`envelope = self.drawing_pos if rel_amp >= 0 else self.drawing_neg`
selection of `update_drawing`). -/
def routed_side (st : EnvState) (rel : ℚ) : List ℚ :=
  if 0 ≤ rel then st.drawing_pos else st.drawing_neg

/-- `get_modified_wave` of `🍘advance_Natural_Language.py` (lines 386-403)
as a function of the data it reads: the normalized audio samples, the two
envelope arrays loaded from CSV, and the centering offset.  A sample `≥ 0`
is replaced by `loaded_pos[i] + offset`, a negative one by
`loaded_neg[i] + offset`; with `subtract_offset = true` (the WAV-export
variant) the offset is then subtracted from every entry. -/
def get_modified_wave (audio loaded_pos loaded_neg : List ℚ) (offset : ℚ)
    (subtract_offset : Bool) : List ℚ :=
  let adjusted := (List.range audio.length).map
    (fun i => if 0 ≤ audio.getD i 0 then loaded_pos.getD i 0 + offset
              else loaded_neg.getD i 0 + offset)
  if subtract_offset then adjusted.map (fun v => v - offset) else adjusted

/-- `get_modified_wave` of `tempCodeRunnerFile.py` (lines 139-146): the
older variant replaces samples strictly greater than 0 from the positive
side and strictly smaller than 0 from the negative side; a sample exactly 0
falls through both branches and keeps its original value. -/
def get_modified_wave_temp (audio drawing_pos drawing_neg : List ℚ) (offset : ℚ) : List ℚ :=
  (List.range audio.length).map
    (fun i => if 0 < audio.getD i 0 then drawing_pos.getD i 0 + offset
              else if audio.getD i 0 < 0 then drawing_neg.getD i 0 + offset
              else audio.getD i 0)

/-- The sign comparator of `strict_sign_subdivision`
(`🍘advance_Natural_Language.py` lines 161-162): tag 0 for a negative
value, tag 1 for a value `≥ 0`. -/
def sign_color (v : ℚ) : ℕ :=
  if v < 0 then 0 else 1

/-- One iteration of the `strict_sign_subdivision` loop (lines 163-176) for
the consecutive point pair at positions `i`, `i+1`: always emit the point at
`i` with its own sign tag; when the sign strictly changes, additionally emit
the interpolated zero crossing (fallback `t = 1/2` when `|dy| ≤ 10⁻¹²`)
tagged with the destination side's color. -/
def sss_emit (x y : List ℚ) (i : ℕ) : List (ℚ × ℚ × ℕ) :=
  let xi := x.getD i 0
  let yi := y.getD i 0
  let xip1 := x.getD (i + 1) 0
  let yip1 := y.getD (i + 1) 0
  if (yi < 0 ∧ 0 ≤ yip1) ∨ (0 ≤ yi ∧ yip1 < 0) then
    let dy := yip1 - yi
    let t := if 1 / 1000000000000 < |dy| then (0 - yi) / dy else 1 / 2
    let x_cross := xi + t * (xip1 - xi)
    let crossing_color : ℕ := if yi < 0 ∧ 0 ≤ yip1 then 1 else 0
    [(xi, yi, sign_color yi), (x_cross, 0, crossing_color)]
  else [(xi, yi, sign_color yi)]

/-- `strict_sign_subdivision` (`🍘advance_Natural_Language.py` lines
156-180): emit every point pair's output in order, then append the final
original point with its own tag; empty input gives empty output.  The three
parallel output arrays are fused into one list of
(x, y, colorTag) triples. -/
def strict_sign_subdivision (x y : List ℚ) : List (ℚ × ℚ × ℕ) :=
  if x.length = 0 then []
  else
    ((List.range (x.length - 1)).map (sss_emit x y)).flatten ++
      [(x.getD (x.length - 1) 0, y.getD (y.length - 1) 0, sign_color (y.getD (y.length - 1) 0))]

/-- One row of an envelope CSV file: the header row, or a data row
`index, positive, negative`.  Python's float-to-text round trip
(`str`/`repr` then `float`) is exact, so data values are modelled directly
as the rationals they denote. -/
inductive CsvRow where
  | header : CsvRow
  | data : ℕ → ℚ → ℚ → CsvRow
deriving DecidableEq, Repr

/-- The envelope CSV writer of `process_multi_division`
(`🍘advance_Natural_Language.py` lines 597-601): one header row, then one
row per index `i` in ascending order holding `i, drawing_pos[i],
drawing_neg[i]`. -/
def write_envelope_csv (pos neg : List ℚ) : List CsvRow :=
  CsvRow.header ::
    (List.range pos.length).map (fun i => CsvRow.data i (pos.getD i 0) (neg.getD i 0))

/-- `load_envelope_csv` (`🍘advance_Natural_Language.py` lines 370-384):
skip the first row, then collect column 1 into the positive array and
column 2 into the negative array.  (A `header` row past the first would
make `float` raise in Python; the embedding returns `0` there, a corner no
written table reaches.) -/
def load_envelope_csv (rows : List CsvRow) : List ℚ × List ℚ :=
  match rows with
  | [] => ([], [])
  | _ :: rest =>
    (rest.map (fun r => match r with | .header => 0 | .data _ p _ => p),
     rest.map (fun r => match r with | .header => 0 | .data _ _ n => n))

/-- Modelled from the spec: local-extremum detection of the peak-anchored
rescaling strategy (§4.3), which is absent from the source files: "detect
all local maxima of `samples` and all local maxima of `-samples`".  A local
maximum is an interior index strictly above both neighbours. -/
def isLocalMax (s : List ℚ) (i : ℕ) : Bool :=
  decide (1 ≤ i) && decide (i + 1 < s.length) &&
    decide (s.getD (i - 1) 0 < s.getD i 0) && decide (s.getD (i + 1) 0 < s.getD i 0)

/-- Modelled from the spec: "merge and sort their indices ascending" —
the ascending list of all positive and negative local extrema of `s`. -/
def extremaIndices (s : List ℚ) : List ℕ :=
  (List.range s.length).filter (fun i => isLocalMax s i || isLocalMax (s.map (fun v => -v)) i)

/-- Modelled from the spec: the per-extremum factor of §4.3 — target
`t = positive[i] + offset` when the extremum value `v ≥ 0`, else
`negative[i] + offset`; `factor = t / v` when `v ≠ 0`, else the defined
fallback `1`. -/
def peakFactor (s pos neg : List ℚ) (offset : ℚ) (i : ℕ) : ℚ :=
  let v := s.getD i 0
  let t := if 0 ≤ v then pos.getD i 0 + offset else neg.getD i 0 + offset
  if v ≠ 0 then t / v else 1

/-- Modelled from the spec: bounded piecewise-linear interpolation through
control points, continued flat past the last control point. -/
def interpGo (k0 : ℕ) (f0 : ℚ) : List (ℕ × ℚ) → ℕ → ℚ
  | [], _ => f0
  | (k1, f1) :: rest, i =>
    if i ≤ k1 then f0 + (f1 - f0) * ((i : ℚ) - (k0 : ℚ)) / ((k1 : ℚ) - (k0 : ℚ))
    else interpGo k1 f1 rest i

/-- Modelled from the spec: "Build a piecewise-linear interpolation of
`factor` over the full index range `[0, N)` using the extrema as control
points (outside the first/last extremum, factor is held at the nearest
extremum's value — flat extrapolation)"; zero control points mean an
all-ones factor. -/
def interpFactor (ctrl : List (ℕ × ℚ)) (i : ℕ) : ℚ :=
  match ctrl with
  | [] => 1
  | (k0, f0) :: rest => if i ≤ k0 then f0 else interpGo k0 f0 rest i

/-- Clipping to `[-1, 1]` (`np.clip(w, -1, 1)`). -/
def clip1 (q : ℚ) : ℚ :=
  max (-1) (min 1 q)

/-- Modelled from the spec: the peak-anchored rescaling synthesis strategy
of §4.3, absent from the source files — per-extremum factors, interpolated
over all indices with flat extrapolation, multiplied into the samples, and
clipped to `[-1, 1]`. -/
def peak_anchored_rescale (s pos neg : List ℚ) (offset : ℚ) : List ℚ :=
  let ctrl := (extremaIndices s).map (fun k => (k, peakFactor s pos neg offset k))
  (List.range s.length).map (fun i => clip1 (s.getD i 0 * interpFactor ctrl i))

/-- A five-sample zero-initialized drawing state used by the concrete
stroke scenario of claim C2. -/
def st5 : EnvState :=
  { audio_data := List.replicate 5 (some 0)
    num_points := 5
    drawing_pos := List.replicate 5 0
    drawing_neg := List.replicate 5 0
    is_drawing := false
    prev_idx := none
    last_state_pos := none
    last_state_neg := none
    offset := 0 }

/-- A one-sample drawing state used by the concrete two-stroke scenario of
claim C5. -/
def stC5 : EnvState :=
  { audio_data := [some 1]
    num_points := 1
    drawing_pos := [0]
    drawing_neg := [0]
    is_drawing := false
    prev_idx := none
    last_state_pos := none
    last_state_neg := none
    offset := 0 }

/-- A two-sample mid-stroke drawing state used by the witness of claim C2. -/
def cSt : EnvState :=
  { audio_data := [some 0, some 0]
    num_points := 2
    drawing_pos := [0, 0]
    drawing_neg := [0, 0]
    is_drawing := true
    prev_idx := some 0
    last_state_pos := none
    last_state_neg := none
    offset := 0 }

/-! ### Shared helper lemmas -/

lemma getD_range_map {α : Type} (f : ℕ → α) (d : α) (n i : ℕ) (hi : i < n) :
    ((List.range n).map f).getD i d = f i := by
  simp [List.getD_eq_getElem?_getD, List.getElem?_map, List.getElem?_range, hi]

lemma map_getD_range {α : Type} (l : List α) (d : α) :
    (List.range l.length).map (fun i => l.getD i d) = l := by
  induction l with
  | nil => simp
  | cons a t ih =>
    rw [List.length_cons, List.range_succ_eq_map, List.map_cons, List.map_map]
    simp only [Function.comp_def, List.getD_cons_zero, List.getD_cons_succ]
    rw [ih]

lemma linspace_getD (a b : ℚ) (n k : ℕ) (hk : k < n) :
    (linspace a b n).getD k 0 = a + (b - a) * k / ((n : ℚ) - 1) := by
  rw [linspace, getD_range_map _ _ _ _ hk]

lemma linspace_length (a b : ℚ) (n : ℕ) : (linspace a b n).length = n := by
  rw [linspace, List.length_map, List.length_range]

lemma assign_slice_getD_in (l : List ℚ) (lo : ℕ) (vals : List ℚ) (j : ℕ)
    (h1 : lo ≤ j) (h2 : j < lo + vals.length) (h3 : j < l.length) :
    (assign_slice l lo vals).getD j 0 = vals.getD (j - lo) 0 := by
  rw [assign_slice, getD_range_map _ _ _ _ h3, if_pos ⟨h1, h2⟩]

/-- The stroke write at an in-range previous index `pn` and a different
in-range new index `iN` assigns, at every position `j` between them
inclusive, the value linearly interpolated between the side's existing
value at `pn` and the new value `rel` at `iN`, proportionally to position. -/
lemma write_stroke_getD (env : List ℚ) (pn iN : ℕ) (rel : ℚ) (j : ℕ)
    (hpl : pn < env.length) (hil : iN < env.length) (hne : pn ≠ iN)
    (hjlo : min pn iN ≤ j) (hjhi : j ≤ max pn iN) :
    (write_stroke env (some (pn : ℤ)) (iN : ℤ) rel).getD j 0 =
      env.getD pn 0 +
        (rel - env.getD pn 0) * (((j : ℚ) - (pn : ℚ)) / ((iN : ℚ) - (pn : ℚ))) := by
  have hpiZ : (pn : ℤ) ≠ (iN : ℤ) := by exact_mod_cast hne
  have hpy : pyGet env (pn : ℤ) = env.getD pn 0 := by
    simp [pyGet]
  have hPQ : ((pn : ℚ)) ≠ ((iN : ℚ)) := by exact_mod_cast hne
  simp only [write_stroke, if_pos hpiZ]
  by_cases hc : iN < pn
  · have hcZ : (iN : ℤ) < (pn : ℤ) := by exact_mod_cast hc
    have hmin : min (pn : ℤ) (iN : ℤ) = (iN : ℤ) := min_eq_right hcZ.le
    have hmax : max (pn : ℤ) (iN : ℤ) = (pn : ℤ) := max_eq_left hcZ.le
    have hminN : min pn iN = iN := min_eq_right hc.le
    have hmaxN : max pn iN = pn := max_eq_left hc.le
    simp only [if_pos hcZ]
    rw [hmin, hmax, hpy]
    have ht1 : ((iN : ℤ)).toNat = iN := by omega
    have ht2 : (((pn : ℤ)) - ((iN : ℤ))).toNat = pn - iN := by omega
    rw [ht1, ht2]
    have h1 : iN ≤ j := by omega
    have h2 : j < iN + (linspace rel (env.getD pn 0) (pn - iN + 1)).length := by
      rw [linspace_length]; omega
    have h3 : j < env.length := by omega
    rw [assign_slice_getD_in env iN _ j h1 h2 h3]
    have hk : j - iN < pn - iN + 1 := by omega
    rw [linspace_getD _ _ _ _ hk]
    have hc1 : ((j - iN : ℕ) : ℚ) = (j : ℚ) - (iN : ℚ) := by
      push_cast [Nat.cast_sub h1]; ring
    have hc2 : (((pn - iN + 1 : ℕ)) : ℚ) - 1 = (pn : ℚ) - (iN : ℚ) := by
      push_cast [Nat.cast_sub hc.le]; ring
    rw [hc1, hc2]
    have hIP : (iN : ℚ) - (pn : ℚ) ≠ 0 := sub_ne_zero.mpr (by exact_mod_cast hne.symm)
    have hPI : (pn : ℚ) - (iN : ℚ) ≠ 0 := sub_ne_zero.mpr hPQ
    field_simp
    ring
  · have hnc : pn < iN := lt_of_le_of_ne (not_lt.mp hc) hne
    have hcZ : ¬ ((iN : ℤ) < (pn : ℤ)) := by exact_mod_cast hc
    have hmin : min (pn : ℤ) (iN : ℤ) = (pn : ℤ) := min_eq_left (by exact_mod_cast hnc.le)
    have hmax : max (pn : ℤ) (iN : ℤ) = (iN : ℤ) := max_eq_right (by exact_mod_cast hnc.le)
    simp only [if_neg hcZ]
    rw [hmin, hmax, hpy]
    have ht1 : ((pn : ℤ)).toNat = pn := by omega
    have ht2 : (((iN : ℤ)) - ((pn : ℤ))).toNat = iN - pn := by omega
    rw [ht1, ht2]
    have h1 : pn ≤ j := by omega
    have h2 : j < pn + (linspace (env.getD pn 0) rel (iN - pn + 1)).length := by
      rw [linspace_length]; omega
    have h3 : j < env.length := by omega
    rw [assign_slice_getD_in env pn _ j h1 h2 h3]
    have hk : j - pn < iN - pn + 1 := by omega
    rw [linspace_getD _ _ _ _ hk]
    have hc1 : ((j - pn : ℕ) : ℚ) = (j : ℚ) - (pn : ℚ) := by
      push_cast [Nat.cast_sub h1]; ring
    have hc2 : (((iN - pn + 1 : ℕ)) : ℚ) - 1 = (iN : ℚ) - (pn : ℚ) := by
      push_cast [Nat.cast_sub hnc.le]; ring
    rw [hc1, hc2]
    have hIP : (iN : ℚ) - (pn : ℚ) ≠ 0 := sub_ne_zero.mpr (by exact_mod_cast hne.symm)
    field_simp

lemma update_drawing_frame (st : EnvState) (idx : ℤ) (y : ℚ) :
    (update_drawing st idx y).audio_data = st.audio_data ∧
    (update_drawing st idx y).num_points = st.num_points ∧
    (update_drawing st idx y).is_drawing = st.is_drawing ∧
    (update_drawing st idx y).last_state_pos = st.last_state_pos ∧
    (update_drawing st idx y).last_state_neg = st.last_state_neg ∧
    (update_drawing st idx y).offset = st.offset := by
  unfold update_drawing
  split
  · exact ⟨rfl, rfl, rfl, rfl, rfl, rfl⟩
  · exact ⟨rfl, rfl, rfl, rfl, rfl, rfl⟩

lemma on_mouse_move_snap (st : EnvState) (idx : ℤ) (y : ℚ) :
    (on_mouse_move st idx y).last_state_pos = st.last_state_pos ∧
    (on_mouse_move st idx y).last_state_neg = st.last_state_neg := by
  unfold on_mouse_move
  split
  · exact ⟨(update_drawing_frame st idx y).2.2.2.1, (update_drawing_frame st idx y).2.2.2.2.1⟩
  · exact ⟨rfl, rfl⟩

lemma foldl_moves_snap (moves : List (ℤ × ℚ)) (s : EnvState) :
    (moves.foldl (fun a m => on_mouse_move a m.1 m.2) s).last_state_pos = s.last_state_pos ∧
    (moves.foldl (fun a m => on_mouse_move a m.1 m.2) s).last_state_neg = s.last_state_neg := by
  induction moves generalizing s with
  | nil => exact ⟨rfl, rfl⟩
  | cons m t ih =>
    rw [List.foldl_cons]
    have h := on_mouse_move_snap s m.1 m.2
    have h2 := ih (on_mouse_move s m.1 m.2)
    exact ⟨h2.1.trans h.1, h2.2.trans h.2⟩

lemma undo_of_snap (st : EnvState) (a b : List ℚ)
    (h1 : st.last_state_pos = some a) (h2 : st.last_state_neg = some b) :
    (undo_envelope st).drawing_pos = a ∧ (undo_envelope st).drawing_neg = b := by
  unfold undo_envelope
  rw [h1, h2]
  exact ⟨rfl, rfl⟩

/-! ### Claim theorems -/

/-- Claim C8: a pointer event whose mapped index lies outside `[0, N)` is
silently ignored — the drawing update returns the state, and in particular
both envelope arrays, completely unchanged, raising no error. -/
theorem C8_out_of_range (st : EnvState) (idx : ℤ) (y : ℚ)
    (h : idx < 0 ∨ (st.num_points : ℤ) ≤ idx) :
    update_drawing st idx y = st := by
  rw [update_drawing, if_pos h]

theorem C8_witness :
    update_drawing st5 (-1) (1/2) = st5 ∧ update_drawing st5 5 0 = st5 :=
  ⟨C8_out_of_range st5 (-1) (1/2) (Or.inl (by decide)),
   C8_out_of_range st5 5 0 (Or.inr (by decide))⟩

/-- Claim C10: `reset_envelope` zero-fills both envelope arrays (lengths
preserved) and changes nothing else of the session state — offset, loaded
audio data, sample count, drawing flags and the saved undo snapshot are all
untouched — so an undo after a reset still restores the pre-stroke state
held in the snapshot. -/
theorem C10_reset_frame (st : EnvState) :
    (reset_envelope st).drawing_pos = List.replicate st.drawing_pos.length 0 ∧
    (reset_envelope st).drawing_neg = List.replicate st.drawing_neg.length 0 ∧
    (reset_envelope st).offset = st.offset ∧
    (reset_envelope st).audio_data = st.audio_data ∧
    (reset_envelope st).num_points = st.num_points ∧
    (reset_envelope st).last_state_pos = st.last_state_pos ∧
    (reset_envelope st).last_state_neg = st.last_state_neg ∧
    (reset_envelope st).is_drawing = st.is_drawing ∧
    (reset_envelope st).prev_idx = st.prev_idx ∧
    (∀ a b, st.last_state_pos = some a → st.last_state_neg = some b →
      (undo_envelope (reset_envelope st)).drawing_pos = a ∧
      (undo_envelope (reset_envelope st)).drawing_neg = b) := by
  refine ⟨rfl, rfl, rfl, rfl, rfl, rfl, rfl, rfl, rfl, ?_⟩
  intro a b h1 h2
  exact undo_of_snap (reset_envelope st) a b h1 h2

theorem C10_witness :
    (undo_envelope (reset_envelope
      { stC5 with last_state_pos := some [1], last_state_neg := some [2] })).drawing_pos
      = [1] :=
  ((C10_reset_frame
      { stC5 with last_state_pos := some [1], last_state_neg := some [2] }
    ).2.2.2.2.2.2.2.2.2 [1] [2] rfl rfl).1

/-- Claim C9 (code bug): for a silent asset the claim says loading fails
with `EmptyOrSilentAsset`, surfaced before any Envelope is created.  The
code instead divides by the zero maximum — NumPy only warns and produces
NaN samples — and still constructs the envelope state.  At the silent
two-sample input the constructor yields a fully formed state whose audio
samples are all undefined and whose envelope arrays are allocated
zero-filled, while the spec-modelled loader fails as the claim demands. -/
theorem C9_silent_eval :
    (envelope_init [0, 0]).audio_data = [none, none] ∧
    (envelope_init [0, 0]).drawing_pos = [0, 0] ∧
    (envelope_init [0, 0]).drawing_neg = [0, 0] ∧
    load_asset_spec [0, 0] = none := by
  decide

/-- Claim C5 (counterexample): a concrete run refuting "begin then two
complete strokes then restore reverts both strokes".  On a one-sample
waveform, stroke one writes `1/2`, stroke two writes `7/10`; undo then
yields `[1/2]` — the state at the second stroke's begin, which still
contains the first stroke — and not the pre-stroke state `[0]`. -/
theorem C5_counterexample :
    (undo_envelope (stroke (stroke stC5 (0, 1/2) []) (0, 7/10) [])).drawing_pos = [1/2] ∧
    (undo_envelope (stroke (stroke stC5 (0, 1/2) []) (0, 7/10) [])).drawing_pos
      ≠ stC5.drawing_pos := by
  norm_num [stroke, on_mouse_press, on_mouse_move, on_mouse_release, update_drawing,
    write_stroke, undo_envelope, stC5]

/-- Claim C5 (amended): every stroke's press re-takes the snapshot, so
restore reverts exactly the most recent stroke: after any complete stroke
from any state, undo returns both envelope arrays to their values at that
stroke's begin. -/
theorem C5_amended (st : EnvState) (pr : ℤ × ℚ) (moves : List (ℤ × ℚ)) :
    (undo_envelope (stroke st pr moves)).drawing_pos = st.drawing_pos ∧
    (undo_envelope (stroke st pr moves)).drawing_neg = st.drawing_neg := by
  have hpress : (on_mouse_press st pr.1 pr.2).last_state_pos = some st.drawing_pos ∧
      (on_mouse_press st pr.1 pr.2).last_state_neg = some st.drawing_neg := by
    unfold on_mouse_press
    constructor
    · exact ((update_drawing_frame _ pr.1 pr.2).2.2.2.1).trans rfl
    · exact ((update_drawing_frame _ pr.1 pr.2).2.2.2.2.1).trans rfl
  have hfold := foldl_moves_snap moves (on_mouse_press st pr.1 pr.2)
  have h1 : (stroke st pr moves).last_state_pos = some st.drawing_pos := by
    unfold stroke
    exact hfold.1.trans hpress.1
  have h2 : (stroke st pr moves).last_state_neg = some st.drawing_neg := by
    unfold stroke
    exact hfold.2.trans hpress.2
  exact undo_of_snap _ _ _ h1 h2

/-- Claim C7: writing the export table (header row, then one row per index
with index, positive value, negative value, ascending) and reconstructing
the two arrays with `load_envelope_csv` reproduces `positive` and
`negative` exactly, element for element. -/
theorem C7_roundtrip (pos neg : List ℚ) (h : neg.length = pos.length) :
    load_envelope_csv (write_envelope_csv pos neg) = (pos, neg) := by
  have h1 : (List.range pos.length).map (fun i => pos.getD i 0) = pos :=
    map_getD_range pos 0
  have h2 : (List.range pos.length).map (fun i => neg.getD i 0) = neg := by
    rw [← h]
    exact map_getD_range neg 0
  calc load_envelope_csv (write_envelope_csv pos neg)
      = ((List.range pos.length).map (fun i => pos.getD i 0),
         (List.range pos.length).map (fun i => neg.getD i 0)) := by
        simp only [write_envelope_csv, load_envelope_csv, List.map_map]
        rfl
    _ = (pos, neg) := by rw [h1, h2]

theorem C7_witness :
    load_envelope_csv (write_envelope_csv [(1 : ℚ), 2] [3, 4]) = ([1, 2], [3, 4]) :=
  C7_roundtrip [1, 2] [3, 4] rfl

/-- Claim C1 (counterexample): the claim fails on the
`tempCodeRunnerFile.py` variant of `get_modified_wave`: at
`samples = [0]`, `positive = [1/2]`, `negative = [0]`, `offset = 0`, the
sample `0` is claimed to route to the positive side giving
`positive[0] + offset = 1/2`, but the variant's strict `> 0` / `< 0`
branches both fail and the output keeps the original value `0`. -/
theorem C1_counterexample :
    get_modified_wave_temp [0] [1/2] [0] 0 = [0] ∧ (0 : ℚ) ≠ 1/2 + 0 := by
  norm_num [get_modified_wave_temp, List.range_succ]

/-- Claim C1 (amended): direct substitution holds as claimed for the
primary implementation — output `positive[i] + offset` when
`samples[i] ≥ 0` (zero routes to the positive side) and
`negative[i] + offset` when `samples[i] < 0`, and the concrete scenario
yields `[-1/10, 0, 1/5, 9/10, -9/10]` — while the `tempCodeRunnerFile.py`
variant replaces only samples strictly above or strictly below zero and
leaves a sample exactly equal to 0 at its original value 0. -/
theorem C1_amended (audio pos neg : List ℚ) (offset : ℚ) (i : ℕ)
    (hi : i < audio.length) :
    (get_modified_wave audio pos neg offset false).getD i 0 =
      (if 0 ≤ audio.getD i 0 then pos.getD i 0 + offset else neg.getD i 0 + offset) ∧
    (get_modified_wave_temp audio pos neg offset).getD i 0 =
      (if 0 < audio.getD i 0 then pos.getD i 0 + offset
       else if audio.getD i 0 < 0 then neg.getD i 0 + offset else audio.getD i 0) ∧
    get_modified_wave [-(1/2), 0, 1/2, 1, -1] [0, 0, 1/5, 9/10, 0]
        [-(1/10), 0, 0, 0, -(9/10)] 0 false
      = [-(1/10), 0, 1/5, 9/10, -(9/10)] := by
  refine ⟨?_, ?_, by norm_num [get_modified_wave, List.range_succ]⟩
  · exact getD_range_map _ _ _ _ hi
  · exact getD_range_map _ _ _ _ hi

theorem C1_witness :
    (get_modified_wave [-(1/2), 0, 1/2, 1, -1] [0, 0, 1/5, 9/10, 0]
        [-(1/10), 0, 0, 0, -(9/10)] 0 false).getD 0 0 = -(1/10) := by
  have h := (C1_amended [-(1/2), 0, 1/2, 1, -1] [0, 0, 1/5, 9/10, 0]
      [-(1/10), 0, 0, 0, -(9/10)] 0 0 (by norm_num)).1
  rw [h]
  norm_num

/-- Claim C6: the `subtract_offset = true` export variant is independent of
the offset: at every index it equals the loaded positive value when the
audio sample is `≥ 0` and the loaded negative value otherwise — the offset
added during substitution is subtracted back out exactly — and equals the
`subtract_offset = false` result minus the offset at every index. -/
theorem C6_offset_strip (audio pos neg : List ℚ) (offset : ℚ) (i : ℕ)
    (hi : i < audio.length) :
    (get_modified_wave audio pos neg offset true).getD i 0 =
      (if 0 ≤ audio.getD i 0 then pos.getD i 0 else neg.getD i 0) ∧
    (get_modified_wave audio pos neg offset true).getD i 0 =
      (get_modified_wave audio pos neg offset false).getD i 0 - offset ∧
    get_modified_wave audio pos neg offset true =
      get_modified_wave audio pos neg 0 true := by
  have key : ∀ off2 : ℚ, get_modified_wave audio pos neg off2 true =
      (List.range audio.length).map
        (fun k => (if 0 ≤ audio.getD k 0 then pos.getD k 0 + off2
                   else neg.getD k 0 + off2) - off2) := by
    intro off2
    rw [get_modified_wave, if_pos rfl, List.map_map]
    rfl
  have key2 : get_modified_wave audio pos neg offset false =
      (List.range audio.length).map
        (fun k => if 0 ≤ audio.getD k 0 then pos.getD k 0 + offset
                  else neg.getD k 0 + offset) := rfl
  refine ⟨?_, ?_, ?_⟩
  · rw [key offset, getD_range_map _ _ _ _ hi]
    split_ifs <;> ring
  · rw [key offset, key2, getD_range_map _ _ _ _ hi, getD_range_map _ _ _ _ hi]
  · rw [key offset, key 0]
    have hfun : (fun k => (if 0 ≤ audio.getD k 0 then pos.getD k 0 + offset
          else neg.getD k 0 + offset) - offset)
        = (fun k => (if 0 ≤ audio.getD k 0 then pos.getD k 0 + 0
          else neg.getD k 0 + 0) - 0) := by
      funext k
      split_ifs <;> ring
    rw [hfun]

theorem C6_witness :
    (get_modified_wave [1/2] [3] [4] 7 true).getD 0 0 = 3 := by
  have h := (C6_offset_strip [1/2] [3] [4] 7 0 (by norm_num)).1
  rw [h]
  norm_num

/-- Claim C4: whenever the sign of consecutive y-values strictly changes
under the comparator (negative iff `< 0`), the partitioner inserts exactly
one point at `x_i + t * (x_{i+1} - x_i)` with
`t = -y_i / (y_{i+1} - y_i)` (`t = 1/2` when the denominator's magnitude is
at most `1e-12`) and `y = 0`, tagged with the destination side's color;
without a sign change no point is inserted; `y = [-1, 1]` at `x = [0, 1]`
emits exactly `(0,-1,neg)`, `(1/2,0,pos)`, `(1,1,pos)`, and `y = [1, -1]`
emits the inserted zero tagged negative. -/
theorem C4_sign_partition (x y : List ℚ) (i : ℕ) (hi : i + 1 < x.length) :
    (sign_color (y.getD i 0) ≠ sign_color (y.getD (i + 1) 0) →
      sss_emit x y i =
        [(x.getD i 0, y.getD i 0, sign_color (y.getD i 0)),
         (x.getD i 0 +
            (if 1 / 1000000000000 < |y.getD (i + 1) 0 - y.getD i 0|
             then (0 - y.getD i 0) / (y.getD (i + 1) 0 - y.getD i 0) else 1 / 2) *
            (x.getD (i + 1) 0 - x.getD i 0), 0, sign_color (y.getD (i + 1) 0))]) ∧
    (sign_color (y.getD i 0) = sign_color (y.getD (i + 1) 0) →
      sss_emit x y i = [(x.getD i 0, y.getD i 0, sign_color (y.getD i 0))]) ∧
    strict_sign_subdivision [0, 1] [-1, 1] = [(0, -1, 0), (1/2, 0, 1), (1, 1, 1)] ∧
    strict_sign_subdivision [0, 1] [1, -1] = [(0, 1, 1), (1/2, 0, 0), (1, -1, 0)] := by
  refine ⟨?_, ?_, ?_, ?_⟩
  · intro hne
    by_cases h1 : y.getD i 0 < 0 <;> by_cases h2 : y.getD (i + 1) 0 < 0
    · simp only [sign_color, h1, h2, if_true] at hne
      exact absurd rfl hne
    · simp only [sss_emit, sign_color, h1, h2, not_lt.mp h2, not_le.mpr h1, if_true,
        if_false, true_and, and_true, false_and, and_false, or_false, false_or]
    · simp only [sss_emit, sign_color, h1, h2, not_lt.mp h1, if_true, if_false,
        true_and, and_true, false_and, and_false, or_false, false_or]
    · simp only [sign_color, h1, h2, if_false] at hne
      exact absurd rfl hne
  · intro heq
    by_cases h1 : y.getD i 0 < 0 <;> by_cases h2 : y.getD (i + 1) 0 < 0
    · simp only [sss_emit, sign_color, h1, h2, not_le.mpr h1, not_le.mpr h2, if_true,
        if_false, true_and, and_true, false_and, and_false, or_false, false_or]
    · simp only [sign_color, h1, h2, if_true, if_false] at heq
      exact absurd heq (by decide)
    · simp only [sign_color, h1, h2, if_true, if_false] at heq
      exact absurd heq (by decide)
    · simp only [sss_emit, sign_color, h1, h2, not_lt.mp h1, not_lt.mp h2, if_true,
        if_false, true_and, and_true, false_and, and_false, or_false, false_or]
  · norm_num [strict_sign_subdivision, sss_emit, sign_color, List.range_succ,
      abs_neg, abs_two]
  · norm_num [strict_sign_subdivision, sss_emit, sign_color, List.range_succ,
      abs_neg, abs_two]

theorem C4_witness :
    sss_emit [0, 1] [-1, 1] 0 = [(0, -1, 0), (1/2, 0, 1)] := by
  have h := (C4_sign_partition [0, 1] [-1, 1] 0 (by norm_num)).1
    (by norm_num [sign_color])
  rw [h]
  norm_num [sign_color, abs_neg, abs_two]

/-- Claim C2: for a stroke step with a defined previous index different
from the new index, both in `[0, N)`, the chosen side receives on the
inclusive index range between them the values linearly interpolated
between the side's existing value at the previous index and the new value
at the new index, proportionally to position; a stroke from
`(index 0, value 0)` to `(index 4, value 1)` on a zero-initialized side
yields exactly `[0, 1/4, 1/2, 3/4, 1]`. -/
theorem C2_stroke_interpolation (st : EnvState) (pn iN : ℕ) (y : ℚ) (j : ℕ)
    (hprev : st.prev_idx = some (pn : ℤ))
    (hpN : pn < st.num_points) (hiN : iN < st.num_points)
    (hlp : st.drawing_pos.length = st.num_points)
    (hln : st.drawing_neg.length = st.num_points)
    (hne : pn ≠ iN)
    (hjlo : min pn iN ≤ j) (hjhi : j ≤ max pn iN) :
    (routed_side (update_drawing st (iN : ℤ) y) (y - st.offset)).getD j 0 =
      (routed_side st (y - st.offset)).getD pn 0 +
        ((y - st.offset) - (routed_side st (y - st.offset)).getD pn 0) *
          (((j : ℚ) - (pn : ℚ)) / ((iN : ℚ) - (pn : ℚ))) ∧
    (on_mouse_move (on_mouse_press st5 0 0) 4 1).drawing_pos
      = [0, 1/4, 1/2, 3/4, 1] := by
  constructor
  · have hguard : ¬ ((iN : ℤ) < 0 ∨ (st.num_points : ℤ) ≤ (iN : ℤ)) := by omega
    simp only [routed_side, update_drawing, if_neg hguard, hprev]
    by_cases hrel : 0 ≤ y - st.offset
    · simp only [if_pos hrel]
      exact write_stroke_getD st.drawing_pos pn iN (y - st.offset) j
        (by omega) (by omega) hne hjlo hjhi
    · simp only [if_neg hrel]
      exact write_stroke_getD st.drawing_neg pn iN (y - st.offset) j
        (by omega) (by omega) hne hjlo hjhi
  · norm_num [on_mouse_move, on_mouse_press, update_drawing, write_stroke, st5,
      linspace, assign_slice, pyGet, List.range_succ, List.replicate_succ,
      min_def, max_def, (show ((4 : ℤ)).toNat = 4 from rfl)]

theorem C2_witness :
    (routed_side (update_drawing cSt ((1 : ℕ) : ℤ) 1) (1 - cSt.offset)).getD 1 0 = 1 := by
  have h := (C2_stroke_interpolation cSt 0 1 1 1 rfl (by norm_num [cSt])
    (by norm_num [cSt]) rfl rfl (by norm_num) (by norm_num) (by norm_num)).1
  rw [h]
  norm_num [routed_side, cSt]

lemma interpFactor_single (k : ℕ) (f : ℚ) (i : ℕ) : interpFactor [(k, f)] i = f := by
  simp only [interpFactor]
  split
  · rfl
  · rfl

/-- Claim C3: the peak-anchored rescaling strategy (spec-modelled; the
strategy is absent from the source files) — per-extremum factors
`t / v` (fallback `1` at a zero extremum), linearly interpolated with flat
extrapolation, multiplied into the samples and clipped to `[-1, 1]`: for a
source whose only extremum has value `1/2` at index `k` with drawn target
`1`, the output at every index is `clip(samples[i] * 2, -1, 1)`. -/
theorem C3_peak_rescale (samples pos neg : List ℚ) (offset : ℚ) (k : ℕ)
    (hext : extremaIndices samples = [k])
    (hv : samples.getD k 0 = 1/2)
    (ht : pos.getD k 0 + offset = 1)
    (i : ℕ) (hi : i < samples.length) :
    (peak_anchored_rescale samples pos neg offset).getD i 0 =
      clip1 (samples.getD i 0 * 2) := by
  have hfac : peakFactor samples pos neg offset k = 2 := by
    simp only [peakFactor, hv]
    rw [if_pos (show (1/2 : ℚ) ≠ 0 by norm_num),
      if_pos (show (0 : ℚ) ≤ 1/2 by norm_num), ht]
    norm_num
  simp only [peak_anchored_rescale, hext, List.map_cons, List.map_nil]
  rw [getD_range_map _ _ _ _ hi, hfac, interpFactor_single]

theorem C3_witness :
    (peak_anchored_rescale [0, 1/2, 0] [0, 1, 0] [0, 0, 0] 0).getD 1 0 =
      clip1 ([0, (1:ℚ)/2, 0].getD 1 0 * 2) := by
  have hext : extremaIndices [0, (1:ℚ)/2, 0] = [1] := by
    norm_num [extremaIndices, isLocalMax, List.range_succ, List.filter]
  exact C3_peak_rescale [0, 1/2, 0] [0, 1, 0] [0, 0, 0] 0 1 hext (by norm_num)
    (by norm_num) 1 (by norm_num)
